import Mathlib

/-!
Shallow embedding of the CrowdGuru assignment engine (`guru.py`).

The sole persistent entity is `Question`; the store is the list of all
records, in key (creation) order.  Clock values are natural numbers (seconds);
`MAX_ANSWER_TIME` is the assignment TTL.  Each datastore operation of the
source is translated into a pure function on the store; the retry loop of
`assign_question` is given both a sequential embedding (no other caller runs
during the call) and an interference-parameterised embedding in which other
callers may mutate the store between the candidate query and the claim
transaction of each round.  An atomic-action trace model (`Act`) covers every
mutation path of the source for the reachable-state invariants.
-/

/-- An instant-messaging identity (`datastore_types.IM`): protocol and
address. -/
structure IM where
  protocol : String
  address : String
deriving DecidableEq

/-- `MAX_ANSWER_TIME = 120`: seconds until an assignment expires. -/
def MAX_ANSWER_TIME : Nat := 120

/-- The `Question` entity.  `claims` holds the `assignees` repeated property
together with the clock value at which `_try_assign` appended each entry (the
source stores only the identity; the time component is specification
instrumentation used to state the TTL properties).  The source field
`assignees` is the first projection, `Question.assignees`. -/
structure Question where
  id : Nat
  question : String
  asker : IM
  asked : Nat
  suspended : Bool
  claims : List (IM × Nat)
  last_assigned : Option Nat
  answer : Option String
  answerer : Option IM
  answered : Option Nat
deriving DecidableEq

/-- The `assignees` repeated property of the entity. -/
def Question.assignees (q : Question) : List IM := q.claims.map Prod.fst

/-- The datastore: every `Question` record, in key order (records are never
deleted, and fresh keys are assigned in increasing order). -/
abbrev Store := List Question

/-- `key.get()`: lookup by id. -/
def getQ (s : Store) (qid : Nat) : Option Question :=
  s.find? (fun r => r.id == qid)

/-- `entity.put()`: replace the record carrying the same id. -/
def putQ (s : Store) (q : Question) : Store :=
  s.map (fun r => if r.id = q.id then q else r)

/-- The comparison `last_assigned < expiry` as evaluated by the datastore (a
missing value sorts before every concrete value, hence satisfies the
inequality) and, identically, the guard
`not question.last_assigned or question.last_assigned < expiry`
of `_try_assign`. -/
def laLt (la : Option Nat) (expiry : Nat) : Bool :=
  match la with
  | none => true
  | some t => decide (t < expiry)

/-- The record written by a successful claim inside `_try_assign`:
`question.assignees.append(user); question.last_assigned = now`, where `now`
is the transaction-time clock. -/
def claimRecord (q : Question) (user : IM) (now : Nat) : Question :=
  { q with claims := q.claims ++ [(user, now)], last_assigned := some now }

/-- `Question._try_assign` (transactional): re-read the record by key; if
`not question.last_assigned or question.last_assigned < expiry`, append the
user, stamp `last_assigned` with the transaction-time clock and put; either
way return the post-transaction record. -/
def tryAssign (s : Store) (qid : Nat) (user : IM) (expiry now : Nat) :
    Store × Option Question :=
  match getQ s qid with
  | none => (s, none)
  | some q =>
      if laLt q.last_assigned expiry then
        (putQ s (claimRecord q user now), some (claimRecord q user now))
      else (s, some q)

/-- Tag used to order `last_assigned` values: a missing value sorts first. -/
def laTag : Option Nat → Nat
  | none => 0
  | some _ => 1

/-- Value component of the `last_assigned` sort key. -/
def laVal : Option Nat → Nat
  | none => 0
  | some t => t

/-- Ordering of the candidate query `order(last_assigned, asked)`: primarily
by `last_assigned` with missing values first, then by `asked`, with the
datastore's implicit final tie-break by key. -/
def candProp (a b : Question) : Prop :=
  laTag a.last_assigned < laTag b.last_assigned
    ∨ (laTag a.last_assigned = laTag b.last_assigned
        ∧ (laVal a.last_assigned < laVal b.last_assigned
            ∨ (laVal a.last_assigned = laVal b.last_assigned
                ∧ (a.asked < b.asked
                    ∨ (a.asked = b.asked ∧ a.id ≤ b.id)))))

instance (a b : Question) : Decidable (candProp a b) := by
  unfold candProp; infer_instance

/-- Boolean form of `candProp`. -/
def candLE (a b : Question) : Bool := decide (candProp a b)

/-- Insert into a list sorted by `candLE`. -/
def insSorted (x : Question) : List Question → List Question
  | [] => [x]
  | y :: ys => if candLE x y then x :: y :: ys else y :: insSorted x ys

/-- Sort by `candLE` (the order the datastore returns candidates in). -/
def sortCands : List Question → List Question
  | [] => []
  | x :: xs => insSorted x (sortCands xs)

/-- The candidate query of `assign_question`:
`query(answerer == None, last_assigned < expiry).order(last_assigned, asked)`.
-/
def queryCandidates (s : Store) (expiry : Nat) : List Question :=
  sortCands (s.filter (fun q => q.answerer.isNone && laLt q.last_assigned expiry))

/-- `query.fetch(2)` followed by the list comprehension dropping candidates
with `candidate.asker == user`. -/
def assignCandidates (s : Store) (user : IM) (expiry : Nat) : List Question :=
  ((queryCandidates s expiry).take 2).filter (fun c => !(c.asker == user))

/-- The while-condition `question is None or user not in question.assignees`.
-/
def loopGuard (user : IM) : Option Question → Bool
  | none => true
  | some q => !(q.assignees.contains user)

/-- The retry loop of `assign_question`, sequential embedding: no other
caller mutates the store during the call and the clock does not advance, so
every round recomputes the same `expiry = now - MAX_ANSWER_TIME`.  `fuel`
bounds the number of rounds; the result is `none` when the loop is still
running after `fuel` rounds. -/
def assignLoop (user : IM) :
    Nat → Option Question → Store → Nat → Option (Option Question × Store)
  | 0, qv, s, _ => if loopGuard user qv then none else some (qv, s)
  | fuel + 1, qv, s, now =>
      if loopGuard user qv then
        match assignCandidates s user (now - MAX_ANSWER_TIME) with
        | [] => some (qv, s)
        | c :: _ =>
            let r := tryAssign s c.id user (now - MAX_ANSWER_TIME) now
            assignLoop user fuel r.2 r.1 now
      else some (qv, s)

/-- `Question.assign_question` in the sequential embedding (fuel
`s.length + 1` is shown sufficient below). -/
def assign_question (s : Store) (user : IM) (now : Nat) :
    Option (Option Question × Store) :=
  assignLoop user (s.length + 1) none s now

/-- `assignees.remove(user)`: drop the first matching entry. -/
def removeClaim : List (IM × Nat) → IM → List (IM × Nat)
  | [], _ => []
  | c :: cs, u => if c.1 = u then cs else c :: removeClaim cs u

/-- The record written by `unassign` when it removes the user. -/
def releasedRecord (q : Question) (user : IM) : Question :=
  { q with claims := removeClaim q.claims user }

/-- `Question.unassign` (transactional): re-read by key; if the user is in
`assignees`, remove the first occurrence and put. -/
def unassignStore (s : Store) (qid : Nat) (user : IM) : Store :=
  match getQ s qid with
  | none => s
  | some q =>
      if q.assignees.contains user then putQ s (releasedRecord q user)
      else s

/-- `Question.get_asked`: the first (key order) record with
`asker == user` and `answer == None`. -/
def get_asked (s : Store) (user : IM) : Option Question :=
  s.find? (fun q => q.asker == user && q.answer.isNone)

/-- `Question.get_answering`: the first (key order) record with
`user` in `assignees` and `answer == None`. -/
def get_answering (s : Store) (user : IM) : Option Question :=
  s.find? (fun q => q.assignees.contains user && q.answer.isNone)

/-- Outcome of the answering branch of `XmppHandler.text_message`: the final
record, the fan-out recipients, and which acknowledgement the answerer gets.
-/
structure AnswerOutcome where
  record : Question
  otherAssignees : List IM
  fanout : Option (List IM)
  stillThinking : Bool
deriving DecidableEq

/-- The answering branch of `XmppHandler.text_message`.  In the source,
`other_assignees` aliases the entity's list, so the in-place
`remove(im_from)` drops the first occurrence of the answerer before the
entity's field is rebound to `[]`; the entity is then put with
`answer/answerer/answered` set and `assignees` empty.  The
`SOMEONE_ANSWERED_MSG` fan-out is sent only when `other_assignees` is
non-empty; `stillThinking` records whether the answerer is acknowledged with
`TELLME_THANKS_MSG` (they still have an open asked question) or `THANKS_MSG`.
Returns `none` when `get_answering` finds nothing (the message falls through
to `unhandled_command`). -/
def answeredRecord (q : Question) (user : IM) (text : String) (now : Nat) :
    Question :=
  { q with answer := some text, answerer := some user, claims := [],
           answered := some now }

/-- The answering branch of `text_message`, acting on the store; see the
comment on `answeredRecord` for the source correspondence. -/
def text_message_answer (s : Store) (user : IM) (text : String) (now : Nat) :
    Option (Store × AnswerOutcome) :=
  match get_answering s user with
  | none => none
  | some q =>
      let others := q.assignees.erase user
      let q' := answeredRecord q user text now
      let s' := putQ s q'
      some (s', { record := q', otherAssignees := others,
                  fanout := if others.isEmpty then none else some others,
                  stillThinking := (get_asked s' user).isSome })

/-- A freshly asked question: `Question(question=..., asker=...)` with
`asked` set on creation, no assignees, nothing answered. -/
def newQuestion (qid : Nat) (text : String) (user : IM) (now : Nat) :
    Question :=
  { id := qid, question := text, asker := user, asked := now,
    suspended := false, claims := [], last_assigned := none, answer := none,
    answerer := none, answered := none }

/-- The question-creating branch of `tellme_command`: if the user already has
an open asked question nothing is created (they are told to wait); otherwise
a fresh record is put.  Fresh keys are issued in increasing order; since
records are never deleted, `s.length` serves as the fresh key. -/
def askQuestion (s : Store) (user : IM) (text : String) (now : Nat) : Store :=
  if (get_asked s user).isSome then s
  else s ++ [newQuestion s.length text user now]

/-- `XmppPresenceHandler.post`: flip `suspended` on the user's open asked
question whose `suspended` differs from the new status, if any. -/
def presenceStore (s : Store) (user : IM) (suspend : Bool) : Store :=
  match s.find?
      (fun q => q.asker == user && q.answer.isNone && q.suspended == !suspend)
    with
  | none => s
  | some q => putQ s { q with suspended := suspend }

/-- One round of `assign_question` under interference from concurrent
callers: `pre` is the store mutation committed by others before the round's
query, `tQuery` the clock value at which `expiry` is computed (immediately
before the candidate query), `mid` the mutation committed between the query
and the claim transaction, and `tTx` the transaction-time clock
(`tQuery ≤ tTx`). -/
structure Round where
  pre : Store → Store
  tQuery : Nat
  mid : Store → Store
  tTx : Nat

/-- The retry loop of `assign_question` under an explicit interference
schedule, one `Round` per loop iteration.  The result is `none` when the loop
is still running after the scheduled rounds. -/
def assignLoopI (user : IM) :
    List Round → Option Question → Store → Option (Option Question × Store)
  | rounds, qv, s =>
      if loopGuard user qv then
        match rounds with
        | [] => none
        | r :: rs =>
            let s0 := r.pre s
            let expiry := r.tQuery - MAX_ANSWER_TIME
            match assignCandidates s0 user expiry with
            | [] => some (qv, s0)
            | c :: _ =>
                let s1 := r.mid s0
                let t := tryAssign s1 c.id user expiry r.tTx
                assignLoopI user rs t.2 t.1
      else some (qv, s)

/-- One atomic store mutation of the source.  A `claim` is one invocation of
`_try_assign` from some caller's `assign_question` round: it carries the
round's query-time clock `tQuery`, from which that round computed
`expiry = tQuery - MAX_ANSWER_TIME` before running the candidate query, and
the transaction-time clock `tTx`. -/
inductive Act where
  | ask (user : IM) (text : String) (now : Nat)
  | claim (qid : Nat) (user : IM) (tQuery tTx : Nat)
  | release (qid : Nat) (user : IM)
  | giveAnswer (user : IM) (text : String) (now : Nat)
  | presence (user : IM) (suspend : Bool)

/-- Clock sanity of an action: a claim transaction runs no earlier than the
query of its round. -/
def actOK : Act → Bool
  | .claim _ _ tq tt => decide (tq ≤ tt)
  | _ => true

/-- Effect of one atomic action on the store. -/
def applyAct (s : Store) : Act → Store
  | .ask u t n => askQuestion s u t n
  | .claim qid u tq tt => (tryAssign s qid u (tq - MAX_ANSWER_TIME) tt).1
  | .release qid u => unassignStore s qid u
  | .giveAnswer u t n =>
      match text_message_answer s u t n with
      | some r => r.1
      | none => s
  | .presence u b => presenceStore s u b

/-- Effect of a trace of atomic actions. -/
def applyActs (acts : List Act) (s : Store) : Store := acts.foldl applyAct s

/-- Per-record invariant tying the instrumented claim times to
`last_assigned`: a record that has never been assigned has no claims, every
claim time is bounded by `last_assigned`, and consecutive claims on one
record were recorded more than `MAX_ANSWER_TIME` apart. -/
def InvQ (q : Question) : Prop :=
  (q.last_assigned = none → q.claims = [])
    ∧ (∀ la, q.last_assigned = some la → ∀ c ∈ q.claims, c.2 ≤ la)
    ∧ q.claims.Pairwise (fun a b => a.2 + MAX_ANSWER_TIME < b.2)

/-- Store-wide invariant. -/
def InvStore (s : Store) : Prop := ∀ q ∈ s, InvQ q

/-- Key uniqueness: reachable stores have pairwise-distinct ids (fresh keys
are never reissued). -/
def WFStore (s : Store) : Prop := (s.map (fun q => q.id)).Nodup

instance (s : Store) : Decidable (WFStore s) :=
  inferInstanceAs (Decidable (List.Nodup _))

/-! ### Concrete identities and runs used by witnesses and counterexamples -/

def imX : IM := ⟨"xmpp", "asker"⟩

def imY : IM := ⟨"xmpp", "yves"⟩

def imZ : IM := ⟨"xmpp", "zoe"⟩

def imW : IM := ⟨"xmpp", "walt"⟩

/-- Trace: X asks a question; Y claims it at clock 1; Z claims it at clock
130/131 (Y's claim has expired). -/
def c1acts : List Act :=
  [.ask imX "qtext" 0, .claim 0 imY 1 1, .claim 0 imZ 130 131]

/-- The record reached by `c1acts`. -/
def c1q : Question :=
  { id := 0, question := "qtext", asker := imX, asked := 0,
    suspended := false, claims := [(imY, 1), (imZ, 131)],
    last_assigned := some 131, answer := none, answerer := none,
    answered := none }

/-- Trace: X asks; Z claims at clock 1; after the TTL, Z claims the same
question again at clock 130 — the code appends a second entry for Z. -/
def c5acts : List Act :=
  [.ask imX "qtext" 0, .claim 0 imZ 1 1, .claim 0 imZ 130 130]

/-- The record reached by `c5acts`: Z appears twice in `assignees`. -/
def c5q : Question :=
  { id := 0, question := "qtext", asker := imX, asked := 0,
    suspended := false, claims := [(imZ, 1), (imZ, 130)],
    last_assigned := some 130, answer := none, answerer := none,
    answered := none }

/-- A store holding one open question asked by X, claimed by Y at clock 1
(reachable by an ask at clock 0 followed by Y's assign at clock 1). -/
def raceStore : Store :=
  [{ id := 0, question := "qtext", asker := imX, asked := 0,
     suspended := false, claims := [(imY, 1)], last_assigned := some 1,
     answer := none, answerer := none, answered := none }]

/-- Z's assign call, interfered: in round one (query at clock 130, so
`expiry = 10`), W's competing claim transaction (from W's own round with
query at clock 130) commits at clock 131 between Z's query and Z's
transaction at clock 132; Z's round two finds no candidates at clock 133. -/
def c2rounds : List Round :=
  [⟨fun s => s, 130, fun s => applyAct s (.claim 0 imW 130 131), 132⟩,
   ⟨fun s => s, 133, fun s => s, 134⟩]

/-- Z's assign call, interfered: in round one (query at clock 130), Y
answers the question at clock 131 between Z's candidate query and Z's claim
transaction at clock 132. -/
def c4rounds : List Round :=
  [⟨fun s => s, 130, fun s => applyAct s (.giveAnswer imY "atext" 131), 132⟩]

/-- A record as re-read by a claim transaction whose round computed
`expiry = 10` (query at clock 130) while a competing claim committed at
clock 135 in between; the transaction itself runs at clock 260. -/
def c3q : Question :=
  { id := 0, question := "qtext", asker := imX, asked := 0,
    suspended := false, claims := [(imY, 5), (imW, 135)],
    last_assigned := some 135, answer := none, answerer := none,
    answered := none }

/-- Sequential engine-level run: X asks at clock 0. -/
def dupS1 : Store := askQuestion [] imX "qtext" 0

/-- Z's first assign call, at clock 1. -/
def dupRun1 : Option (Option Question × Store) := assign_question dupS1 imZ 1

/-- Store after Z's first assign. -/
def dupS2 : Store :=
  match dupRun1 with
  | some r => r.2
  | none => dupS1

/-- Z's second assign call, at clock 130, after Z's own claim expired. -/
def dupRun2 : Option (Option Question × Store) := assign_question dupS2 imZ 130

/-- Store after Z's second assign: Z is recorded twice on question 0. -/
def dupS3 : Store :=
  match dupRun2 with
  | some r => r.2
  | none => dupS2

/-- Open question 0, asked by X, with a single claim by Z. -/
def c7qa : Question :=
  { id := 0, question := "qa", asker := imX, asked := 0, suspended := false,
    claims := [(imZ, 1)], last_assigned := some 1, answer := none,
    answerer := none, answered := none }

/-- Open question 1, asked by Y, with a single claim by Z. -/
def c7qb : Question :=
  { id := 1, question := "qb", asker := imY, asked := 0, suspended := false,
    claims := [(imZ, 30)], last_assigned := some 30, answer := none,
    answerer := none, answered := none }

/-- Open question claimed by W at clock 1 and by Z at clock 130, used to
witness the fan-out behaviour of the answering branch. -/
def c10q : Question :=
  { id := 0, question := "qtext", asker := imX, asked := 0,
    suspended := false, claims := [(imW, 1), (imZ, 130)],
    last_assigned := some 130, answer := none, answerer := none,
    answered := none }

/-! ### Reachable-state invariant -/

theorem mem_putQ {s : Store} {p q : Question} (h : q ∈ putQ s p) :
    q = p ∨ q ∈ s := by
  rcases List.mem_map.1 h with ⟨r, hr, hrq⟩
  by_cases hid : r.id = p.id
  · rw [if_pos hid] at hrq
    exact Or.inl hrq.symm
  · rw [if_neg hid] at hrq
    exact Or.inr (hrq ▸ hr)

theorem removeClaim_subset {u : IM} {cs : List (IM × Nat)} {c : IM × Nat}
    (h : c ∈ removeClaim cs u) : c ∈ cs := by
  induction cs with
  | nil => simp [removeClaim] at h
  | cons c0 cs ih =>
      simp only [removeClaim] at h
      by_cases h0 : c0.1 = u
      · rw [if_pos h0] at h
        exact List.mem_cons_of_mem _ h
      · rw [if_neg h0] at h
        rcases List.mem_cons.1 h with h | h
        · exact h ▸ List.mem_cons_self _ _
        · exact List.mem_cons_of_mem _ (ih h)

theorem pairwise_removeClaim {R : (IM × Nat) → (IM × Nat) → Prop} {u : IM}
    {cs : List (IM × Nat)} (h : cs.Pairwise R) :
    (removeClaim cs u).Pairwise R := by
  induction cs with
  | nil => exact h
  | cons c0 cs ih =>
      rcases List.pairwise_cons.1 h with ⟨hc0, hcs⟩
      simp only [removeClaim]
      by_cases h0 : c0.1 = u
      · rw [if_pos h0]
        exact hcs
      · rw [if_neg h0]
        exact List.pairwise_cons.2
          ⟨fun b hb => hc0 b (removeClaim_subset hb), ih hcs⟩

theorem invQ_newQuestion (qid : Nat) (text : String) (user : IM) (now : Nat) :
    InvQ (newQuestion qid text user now) :=
  ⟨fun _ => rfl, fun la hla => by simp [newQuestion] at hla, List.Pairwise.nil⟩

theorem invQ_claimRecord {q : Question} {user : IM} {tq now : Nat}
    (h : InvQ q) (hla : laLt q.last_assigned (tq - MAX_ANSWER_TIME) = true)
    (hok : tq ≤ now) : InvQ (claimRecord q user now) := by
  obtain ⟨h1, h2, h3⟩ := h
  have hbound : ∀ c ∈ q.claims, c.2 + MAX_ANSWER_TIME < now := by
    intro c hc
    cases hq : q.last_assigned with
    | none =>
        rw [h1 hq] at hc
        exact absurd hc (List.not_mem_nil c)
    | some la0 =>
        rw [hq] at hla
        simp only [laLt, decide_eq_true_eq] at hla
        have := h2 la0 hq c hc
        omega
  refine ⟨fun hnone => Option.noConfusion hnone, ?_, ?_⟩
  · intro la hla' c hc
    have hlanow : now = la := Option.some.inj hla'
    replace hc : c ∈ q.claims ++ [(user, now)] := hc
    rcases List.mem_append.1 hc with hc | hc
    · have := hbound c hc
      omega
    · have hcu : c = (user, now) := by simpa using hc
      subst hcu
      omega
  · show (q.claims ++ [(user, now)]).Pairwise
      fun a b => a.2 + MAX_ANSWER_TIME < b.2
    refine List.pairwise_append.2 ⟨h3, List.pairwise_singleton _ _, ?_⟩
    intro a ha b hb
    have hbu : b = (user, now) := by simpa using hb
    subst hbu
    exact hbound a ha

theorem invQ_removeClaim {q : Question} {user : IM} (h : InvQ q) :
    InvQ (releasedRecord q user) := by
  obtain ⟨h1, h2, h3⟩ := h
  refine ⟨?_, ?_, ?_⟩
  · intro hnone
    show removeClaim q.claims user = []
    rw [h1 hnone]
    rfl
  · intro la hla c hc
    exact h2 la hla c (removeClaim_subset hc)
  · exact pairwise_removeClaim h3

theorem invStore_putQ {s : Store} {p : Question} (h : InvStore s)
    (hp : InvQ p) : InvStore (putQ s p) := by
  intro q hq
  rcases mem_putQ hq with rfl | hq
  · exact hp
  · exact h q hq

theorem invStore_askQuestion {s : Store} {u : IM} {t : String} {n : Nat}
    (h : InvStore s) : InvStore (askQuestion s u t n) := by
  unfold askQuestion
  split
  · exact h
  · intro q hq
    rcases List.mem_append.1 hq with hq | hq
    · exact h q hq
    · have hqn : q = newQuestion s.length t u n := by simpa using hq
      rw [hqn]
      exact invQ_newQuestion _ _ _ _

theorem invStore_tryAssign {s : Store} {qid : Nat} {u : IM} {tq tt : Nat}
    (h : InvStore s) (hok : tq ≤ tt) :
    InvStore (tryAssign s qid u (tq - MAX_ANSWER_TIME) tt).1 := by
  unfold tryAssign
  cases hget : getQ s qid with
  | none => exact h
  | some q =>
      have hq : InvQ q := h q (List.mem_of_find?_eq_some hget)
      show InvStore (if laLt q.last_assigned (tq - MAX_ANSWER_TIME) = true then (putQ s (claimRecord q u tt), some (claimRecord q u tt)) else (s, some q)).1
      by_cases hla : laLt q.last_assigned (tq - MAX_ANSWER_TIME) = true
      · rw [if_pos hla]
        exact invStore_putQ h (invQ_claimRecord hq hla hok)
      · rw [if_neg hla]
        exact h

theorem invStore_unassign {s : Store} {qid : Nat} {u : IM}
    (h : InvStore s) : InvStore (unassignStore s qid u) := by
  unfold unassignStore
  cases hget : getQ s qid with
  | none => exact h
  | some q =>
      have hq : InvQ q := h q (List.mem_of_find?_eq_some hget)
      show InvStore (if q.assignees.contains u = true then putQ s (releasedRecord q u) else s)
      split
      · exact invStore_putQ h (invQ_removeClaim hq)
      · exact h

theorem invStore_answer {s : Store} {u : IM} {t : String} {n : Nat}
    (h : InvStore s) :
    InvStore (match text_message_answer s u t n with
              | some r => r.1
              | none => s) := by
  unfold text_message_answer
  cases hget : get_answering s u with
  | none => exact h
  | some q =>
      show InvStore (putQ s (answeredRecord q u t n))
      exact invStore_putQ h
        ⟨fun _ => rfl, fun la hla c hc => absurd hc (List.not_mem_nil c),
          List.Pairwise.nil⟩

theorem invStore_presence {s : Store} {u : IM} {b : Bool}
    (h : InvStore s) : InvStore (presenceStore s u b) := by
  unfold presenceStore
  cases hf : s.find?
      (fun q => q.asker == u && q.answer.isNone && q.suspended == !b) with
  | none => exact h
  | some q =>
      have hq : InvQ q := h q (List.mem_of_find?_eq_some hf)
      exact invStore_putQ h ⟨hq.1, hq.2.1, hq.2.2⟩

theorem invStore_applyAct {s : Store} {a : Act} (h : InvStore s)
    (ha : actOK a = true) : InvStore (applyAct s a) := by
  cases a with
  | ask u t n => exact invStore_askQuestion h
  | claim qid u tq tt => exact invStore_tryAssign h (of_decide_eq_true ha)
  | release qid u => exact invStore_unassign h
  | giveAnswer u t n => exact invStore_answer h
  | presence u b => exact invStore_presence h

theorem invStore_applyActs {acts : List Act} :
    ∀ {s : Store}, (∀ a ∈ acts, actOK a = true) → InvStore s →
      InvStore (applyActs acts s) := by
  induction acts with
  | nil =>
      intro s _ h
      exact h
  | cons a acts ih =>
      intro s hok h
      exact ih (fun b hb => hok b (List.mem_cons_of_mem a hb))
        (invStore_applyAct h (hok a (List.mem_cons_self a acts)))

/-- Claim C1: for every interleaved sequence of assign calls (modelled as a
trace of atomic actions covering every mutation path of the source, each
claim transaction running at clock `tTx` no earlier than the clock `tQuery`
at which its round computed the expiry), no two users simultaneously hold a
valid (non-expired) claim on the same question: whenever two assignee entries
`i < j` are both recorded on a question, then at any clock `t` from the
moment the later entry exists, more than `MAX_ANSWER_TIME = 120` seconds have
elapsed since the earlier entry was recorded — the earlier claim has expired.
-/
theorem assign_claims_exclusive_within_ttl (acts : List Act)
    (hok : ∀ a ∈ acts, actOK a = true) (q : Question)
    (hq : q ∈ applyActs acts []) (i j : Nat) (hi : i < q.claims.length)
    (hj : j < q.claims.length) (hij : i < j) (t : Nat)
    (ht : (q.claims.get ⟨j, hj⟩).2 ≤ t) :
    (q.claims.get ⟨i, hi⟩).2 + MAX_ANSWER_TIME < t := by
  have hinv : InvStore (applyActs acts []) :=
    invStore_applyActs hok (fun r hr => absurd hr (List.not_mem_nil r))
  have hpair := (hinv q hq).2.2
  have hij2 := List.pairwise_iff_get.1 hpair ⟨i, hi⟩ ⟨j, hj⟩ hij
  omega

/-- Witness for C1: in the concrete trace `c1acts`, the two claims on the
shared question were recorded at clocks 1 and 131, more than the TTL apart.
-/
theorem assign_claims_exclusive_within_ttl_witness :
    c1q ∈ applyActs c1acts [] ∧ 1 + MAX_ANSWER_TIME < 131 :=
  ⟨by decide,
   assign_claims_exclusive_within_ttl c1acts (by decide) c1q (by decide) 0 1
     (by decide) (by decide) (by decide) 131 (by decide)⟩

/-- Claim C5 (amended): a user identity may appear more than once in an Open
question's `assignees` (nothing in `_try_assign` or `assign_question` checks
membership before appending), but any two occurrences of the same identity
were recorded more than `MAX_ANSWER_TIME` apart: the earlier claim had
already expired when the identity was re-appended. -/
theorem duplicate_assignee_claims_ttl_apart (acts : List Act)
    (hok : ∀ a ∈ acts, actOK a = true) (q : Question)
    (hq : q ∈ applyActs acts []) (i j : Nat) (hi : i < q.claims.length)
    (hj : j < q.claims.length) (hij : i < j)
    (huser : (q.claims.get ⟨i, hi⟩).1 = (q.claims.get ⟨j, hj⟩).1) :
    (q.claims.get ⟨i, hi⟩).2 + MAX_ANSWER_TIME < (q.claims.get ⟨j, hj⟩).2 := by
  have hinv : InvStore (applyActs acts []) :=
    invStore_applyActs hok (fun r hr => absurd hr (List.not_mem_nil r))
  exact List.pairwise_iff_get.1 (hinv q hq).2.2 ⟨i, hi⟩ ⟨j, hj⟩ hij

/-- Witness for the amended C5: in `c5acts`, Z's two occurrences were
recorded at clocks 1 and 130, more than the TTL apart. -/
theorem duplicate_assignee_claims_ttl_apart_witness :
    c5q ∈ applyActs c5acts [] ∧ 1 + MAX_ANSWER_TIME < 130 :=
  ⟨by decide,
   duplicate_assignee_claims_ttl_apart c5acts (by decide) c5q (by decide) 0 1
     (by decide) (by decide) (by decide) (by decide)⟩

/-! ### Sequential execution of assign_question -/

theorem mem_insSorted {x y : Question} {l : List Question}
    (h : y ∈ insSorted x l) : y = x ∨ y ∈ l := by
  induction l with
  | nil => simpa [insSorted] using h
  | cons z l ih =>
      simp only [insSorted] at h
      by_cases hc : candLE x z = true
      · rw [if_pos hc] at h
        exact List.mem_cons.1 h
      · rw [if_neg hc] at h
        rcases List.mem_cons.1 h with h | h
        · exact Or.inr (h ▸ List.mem_cons_self _ _)
        · rcases ih h with h | h
          · exact Or.inl h
          · exact Or.inr (List.mem_cons_of_mem _ h)

theorem mem_sortCands {l : List Question} {y : Question}
    (h : y ∈ sortCands l) : y ∈ l := by
  induction l with
  | nil => simpa [sortCands] using h
  | cons x l ih =>
      rcases mem_insSorted h with h | h
      · exact h ▸ List.mem_cons_self _ _
      · exact List.mem_cons_of_mem _ (ih h)

/-- Soundness of the candidate computation: anything it returns is a record
of the store satisfying the query predicate, not asked by the user. -/
theorem assignCandidates_sound {s : Store} {user : IM} {e : Nat}
    {c : Question} (h : c ∈ assignCandidates s user e) :
    c ∈ s ∧ c.answerer = none ∧ laLt c.last_assigned e = true
      ∧ c.asker ≠ user := by
  rcases List.mem_filter.1 h with ⟨htake, hasker⟩
  have hq : c ∈ queryCandidates s e := List.mem_of_mem_take htake
  have hmem : c ∈ s.filter
      (fun q => q.answerer.isNone && laLt q.last_assigned e) :=
    mem_sortCands hq
  rcases List.mem_filter.1 hmem with ⟨hs, hpred⟩
  rw [Bool.and_eq_true] at hpred
  refine ⟨hs, ?_, hpred.2, ?_⟩
  · simpa [Option.isNone_iff_eq_none] using hpred.1
  · simpa using hasker

theorem getQ_of_mem {s : Store} (hwf : WFStore s) {c : Question}
    (hc : c ∈ s) : getQ s c.id = some c := by
  induction s with
  | nil => exact absurd hc (List.not_mem_nil c)
  | cons q s ih =>
      have hwf2 := List.nodup_cons.1 hwf
      rcases List.mem_cons.1 hc with rfl | hc
      · show List.find? (fun r => r.id == c.id) (c :: s) = some c
        rw [List.find?_cons_of_pos _ (by simp)]
      · have hne : (q.id == c.id) = false := by
          refine beq_eq_false_iff_ne.2 fun he => hwf2.1 ?_
          show q.id ∈ List.map (fun q => q.id) s
          rw [he]
          exact List.mem_map_of_mem _ hc
        show List.find? (fun r => r.id == c.id) (q :: s) = some c
        rw [List.find?_cons_of_neg _ (by simp [hne])]
        exact ih hwf2.2 hc

theorem loopGuard_claimRecord (q : Question) (user : IM) (now : Nat) :
    loopGuard user (some (claimRecord q user now)) = false := by
  have hmem : user ∈ (claimRecord q user now).assignees := by
    simp [claimRecord, Question.assignees]
  have hc : (claimRecord q user now).assignees.contains user = true :=
    List.elem_iff.2 hmem
  show (!(claimRecord q user now).assignees.contains user) = false
  rw [hc]
  rfl

theorem assignLoop_of_guard_false {user : IM} {fuel : Nat}
    {qv : Option Question} {s : Store} {now : Nat}
    (h : loopGuard user qv = false) :
    assignLoop user fuel qv s now = some (qv, s) := by
  cases fuel with
  | zero => simp [assignLoop, h]
  | succ fuel => simp [assignLoop, h]

/-- Sequentially, a round that finds no candidate breaks immediately,
returning the initial `None`. -/
theorem assign_round_empty {s : Store} {user : IM} {now : Nat}
    (hcand : assignCandidates s user (now - MAX_ANSWER_TIME) = []) :
    assign_question s user now = some (none, s) := by
  have hguard : loopGuard user none = true := rfl
  show assignLoop user (s.length + 1) none s now = some (none, s)
  rw [assignLoop, if_pos hguard, hcand]

/-- Sequentially, the first claim transaction always succeeds: the candidate
still satisfies the very condition the transaction re-checks, so the loop
performs exactly one round. -/
theorem assign_round_claim {s : Store} {user : IM} {now : Nat}
    (hwf : WFStore s) {c : Question} {cs : List Question}
    (hcand : assignCandidates s user (now - MAX_ANSWER_TIME) = c :: cs) :
    assign_question s user now
      = some (some (claimRecord c user now), putQ s (claimRecord c user now)) := by
  have hc : c ∈ assignCandidates s user (now - MAX_ANSWER_TIME) := by
    rw [hcand]
    exact List.mem_cons_self c cs
  obtain ⟨hcs, hans, hla, hask⟩ := assignCandidates_sound hc
  have hget : getQ s c.id = some c := getQ_of_mem hwf hcs
  have htry : tryAssign s c.id user (now - MAX_ANSWER_TIME) now
      = (putQ s (claimRecord c user now), some (claimRecord c user now)) := by
    simp only [tryAssign, hget]
    rw [if_pos hla]
  have hguard : loopGuard user none = true := rfl
  show assignLoop user (s.length + 1) none s now = _
  rw [assignLoop, if_pos hguard, hcand]
  show assignLoop user s.length
      (tryAssign s c.id user (now - MAX_ANSWER_TIME) now).2
      (tryAssign s c.id user (now - MAX_ANSWER_TIME) now).1 now = _
  rw [htry]
  exact assignLoop_of_guard_false (loopGuard_claimRecord c user now)

/-- Claim C8: the retry loop of assign_question terminates in the sequential
(non-interfered) embedding: with fuel `s.length + 1` the loop always reaches
a result (never exhausts its fuel); an empty candidate set exits with none in
the very first round, and otherwise the single claim transaction of the
first round records the user on the head candidate and the loop exits — at
most one claim transaction round runs. -/
theorem assign_question_terminates (s : Store) (user : IM) (now : Nat)
    (hwf : WFStore s) :
    (assignCandidates s user (now - MAX_ANSWER_TIME) = [] →
        assign_question s user now = some (none, s))
    ∧ (∀ c cs, assignCandidates s user (now - MAX_ANSWER_TIME) = c :: cs →
        assign_question s user now
          = some (some (claimRecord c user now),
                  putQ s (claimRecord c user now))
          ∧ user ∈ (claimRecord c user now).assignees)
    ∧ assign_question s user now ≠ none := by
  refine ⟨fun h => assign_round_empty h,
    fun c cs h => ⟨assign_round_claim hwf h, ?_⟩, ?_⟩
  · simp [claimRecord, Question.assignees]
  · cases hcand : assignCandidates s user (now - MAX_ANSWER_TIME) with
    | nil =>
        rw [assign_round_empty hcand]
        exact fun h => Option.noConfusion h
    | cons c cs =>
        rw [assign_round_claim hwf hcand]
        exact fun h => Option.noConfusion h

/-- Witness for C8 at a concrete store: one open question asked by X, Z's
assign call returns. -/
theorem assign_question_terminates_witness :
    WFStore [newQuestion 0 "qtext" imX 0]
      ∧ assign_question [newQuestion 0 "qtext" imX 0] imZ 130 ≠ none :=
  ⟨by decide,
   (assign_question_terminates [newQuestion 0 "qtext" imX 0] imZ 130
     (by decide)).2.2⟩

/-- Claim C6: candidate selection orders by `last_assigned` ascending with
never-claimed records first and ties broken by `asked` ascending; for a
store holding exactly two Open never-claimed questions A (asked earlier) and
B (asked later), in either storage order, an assign call by a user eligible
for both claims and returns A. -/
theorem assign_prefers_older_asked (A B : Question) (user : IM) (now : Nat)
    (s : Store) (hs : s = [A, B] ∨ s = [B, A])
    (hAla : A.last_assigned = none) (hBla : B.last_assigned = none)
    (hAans : A.answerer = none) (hBans : B.answerer = none)
    (hasked : A.asked < B.asked) (hid : A.id ≠ B.id)
    (hAasker : A.asker ≠ user) (hBasker : B.asker ≠ user) :
    assign_question s user now
      = some (some (claimRecord A user now), putQ s (claimRecord A user now))
      ∧ (claimRecord A user now).id = A.id
      ∧ user ∈ (claimRecord A user now).assignees := by
  have hAB : candLE A B = true := by
    apply decide_eq_true
    unfold candProp
    rw [hAla, hBla]
    exact Or.inr ⟨rfl, Or.inr ⟨rfl, Or.inl hasked⟩⟩
  have hBA : candLE B A = false := by
    apply decide_eq_false
    unfold candProp
    rw [hAla, hBla]
    intro h
    rcases h with h | ⟨-, h⟩
    · exact absurd h (by omega)
    rcases h with h | ⟨-, h⟩
    · exact absurd h (by omega)
    rcases h with h | ⟨h1, -⟩
    · omega
    · omega
  have hpA : (A.answerer.isNone && laLt A.last_assigned (now - MAX_ANSWER_TIME)) = true := by
    rw [hAans, hAla]
    rfl
  have hpB : (B.answerer.isNone && laLt B.last_assigned (now - MAX_ANSWER_TIME)) = true := by
    rw [hBans, hBla]
    rfl
  have hfA : (!(A.asker == user)) = true := by
    rw [beq_eq_false_iff_ne.2 hAasker]
    rfl
  have hfB : (!(B.asker == user)) = true := by
    rw [beq_eq_false_iff_ne.2 hBasker]
    rfl
  have hwf : WFStore s := by
    rcases hs with rfl | rfl
    · show (A.id :: [B.id]).Nodup
      simp [hid]
    · show (B.id :: [A.id]).Nodup
      simp [Ne.symm hid]
  have hcand : assignCandidates s user (now - MAX_ANSWER_TIME) = [A, B] := by
    have hsorted : queryCandidates s (now - MAX_ANSWER_TIME) = [A, B] := by
      rcases hs with rfl | rfl
      · have hfilter : List.filter
            (fun q => q.answerer.isNone && laLt q.last_assigned (now - MAX_ANSWER_TIME)) [A, B] = [A, B] := by
          simp only [List.filter_cons, hpA, hpB, if_true, List.filter_nil]
        show sortCands (List.filter
          (fun q => q.answerer.isNone && laLt q.last_assigned (now - MAX_ANSWER_TIME)) [A, B]) = [A, B]
        rw [hfilter]
        show insSorted A [B] = [A, B]
        show (if candLE A B = true then [A, B] else B :: insSorted A []) = [A, B]
        rw [if_pos hAB]
      · have hfilter : List.filter
            (fun q => q.answerer.isNone && laLt q.last_assigned (now - MAX_ANSWER_TIME)) [B, A] = [B, A] := by
          simp only [List.filter_cons, hpA, hpB, if_true, List.filter_nil]
        show sortCands (List.filter
          (fun q => q.answerer.isNone && laLt q.last_assigned (now - MAX_ANSWER_TIME)) [B, A]) = [A, B]
        rw [hfilter]
        show insSorted B [A] = [A, B]
        show (if candLE B A = true then [B, A] else A :: insSorted B []) = [A, B]
        rw [if_neg (by rw [hBA]; exact fun h => Bool.noConfusion h)]
        rfl
    show (((queryCandidates s (now - MAX_ANSWER_TIME)).take 2).filter
      (fun c => !(c.asker == user))) = [A, B]
    rw [hsorted]
    show List.filter (fun c => !(c.asker == user)) [A, B] = [A, B]
    simp only [List.filter_cons, hfA, hfB, if_true, List.filter_nil]
  refine ⟨assign_round_claim hwf hcand, rfl, ?_⟩
  simp [claimRecord, Question.assignees]

/-- Witness for C6: question 0 asked at clock 1 beats question 1 asked at
clock 2, whichever order the store lists them in. -/
theorem assign_prefers_older_asked_witness :
    assign_question [newQuestion 1 "qb" imY 2, newQuestion 0 "qa" imX 1] imZ 50
      = some (some (claimRecord (newQuestion 0 "qa" imX 1) imZ 50),
          putQ [newQuestion 1 "qb" imY 2, newQuestion 0 "qa" imX 1]
            (claimRecord (newQuestion 0 "qa" imX 1) imZ 50))
      ∧ (claimRecord (newQuestion 0 "qa" imX 1) imZ 50).id
          = (newQuestion 0 "qa" imX 1).id
      ∧ imZ ∈ (claimRecord (newQuestion 0 "qa" imX 1) imZ 50).assignees :=
  assign_prefers_older_asked (newQuestion 0 "qa" imX 1)
    (newQuestion 1 "qb" imY 2) imZ 50 _ (Or.inr rfl) rfl rfl rfl rfl
    (by decide) (by decide) (by decide) (by decide)

/-! ### Release, answer and lookup lemmas -/

theorem getQ_id {s : Store} {qid : Nat} {q : Question}
    (h : getQ s qid = some q) : q.id = qid := by
  have h' : List.find? (fun r => r.id == qid) s = some q := h
  have h2 := List.find?_some h'
  exact beq_iff_eq.1 h2

theorem mem_putQ_determined {s : Store} {p q : Question} (h : q ∈ putQ s p) :
    q = p ∨ (q ∈ s ∧ q.id ≠ p.id) := by
  rcases List.mem_map.1 h with ⟨r, hr, hrq⟩
  by_cases hid : r.id = p.id
  · rw [if_pos hid] at hrq
    exact Or.inl hrq.symm
  · rw [if_neg hid] at hrq
    exact Or.inr ⟨hrq ▸ hr, hrq ▸ hid⟩

theorem getQ_putQ {s : Store} {qid : Nat} {q q' : Question}
    (h : getQ s qid = some q) (hid : q'.id = q.id) :
    getQ (putQ s q') qid = some q' := by
  have hqid : q.id = qid := getQ_id h
  induction s with
  | nil => simp [getQ] at h
  | cons r s ih =>
      show List.find? (fun x => x.id == qid)
        ((if r.id = q'.id then q' else r) :: putQ s q') = some q'
      by_cases hr : (r.id == qid) = true
      · have hrq : r = q := by
          rw [getQ, List.find?_cons_of_pos _ (by exact hr)] at h
          exact Option.some.inj h
        rw [if_pos (by rw [hid, hrq])]
        rw [List.find?_cons_of_pos _ (by rw [hid, hqid]; simp)]
      · have hne2 : ¬(r.id = q'.id) := by
          rw [hid, hqid]
          simpa using hr
        rw [if_neg hne2]
        rw [List.find?_cons_of_neg _ (by exact hr)]
        apply ih
        rw [getQ, List.find?_cons_of_neg _ (by exact hr)] at h
        exact h

theorem map_fst_removeClaim (cs : List (IM × Nat)) (u : IM) :
    (removeClaim cs u).map Prod.fst = (cs.map Prod.fst).erase u := by
  induction cs with
  | nil => rfl
  | cons c cs ih =>
      show (if c.1 = u then cs else c :: removeClaim cs u).map Prod.fst
        = (c.1 :: cs.map Prod.fst).erase u
      by_cases hc : c.1 = u
      · rw [if_pos hc, hc, List.erase_cons_head]
      · rw [if_neg hc, List.erase_cons_tail (by simpa using hc)]
        show c.1 :: (removeClaim cs u).map Prod.fst = c.1 :: (cs.map Prod.fst).erase u
        rw [ih]

theorem erase_eq_filter_of_count_one {l : List IM} {u : IM}
    (h : l.count u = 1) : l.erase u = l.filter (fun a => !(a == u)) := by
  induction l with
  | nil => rfl
  | cons a l ih =>
      by_cases hau : a = u
      · have h0 : l.count u = 0 := by
          have hc := List.count_cons u a l
          rw [if_pos (beq_iff_eq.2 hau)] at hc
          omega
        have hnot : u ∉ l := List.count_eq_zero.1 h0
        have herase : (a :: l).erase u = l := by
          rw [hau, List.erase_cons_head]
        have hfilter : List.filter (fun x => !(x == u)) (a :: l)
            = List.filter (fun x => !(x == u)) l :=
          List.filter_cons_of_neg (by simp [hau])
        have hfl : List.filter (fun x => !(x == u)) l = l :=
          List.filter_eq_self.2 (fun b hb => by
            have hbu : b ≠ u := fun hbu => hnot (hbu ▸ hb)
            rw [beq_eq_false_iff_ne.2 hbu]
            rfl)
        rw [herase, hfilter, hfl]
      · have h1 : l.count u = 1 := by
          have hc := List.count_cons u a l
          rw [if_neg (by simpa using hau)] at hc
          omega
        rw [List.erase_cons_tail (by simpa using hau)]
        rw [List.filter_cons_of_pos (by simpa using hau)]
        rw [ih h1]

/-- Claim C9: `unassign` removes exactly the first occurrence of the user's
identity from `assignees` (a count of `k ≥ 1` becomes `k - 1`, so a
duplicated identity remains an assignee after a single release) and leaves
every other field unchanged; when the identity is absent the store is
untouched. -/
theorem unassign_removes_first_occurrence (s : Store) (qid : Nat) (user : IM)
    (q : Question) (hq : getQ s qid = some q) :
    (q.assignees.count user = 0 → unassignStore s qid user = s)
    ∧ ∃ q', getQ (unassignStore s qid user) qid = some q'
        ∧ q'.assignees = q.assignees.erase user
        ∧ q'.assignees.count user = q.assignees.count user - 1
        ∧ (2 ≤ q.assignees.count user → user ∈ q'.assignees)
        ∧ q'.id = q.id ∧ q'.question = q.question ∧ q'.asker = q.asker
        ∧ q'.asked = q.asked ∧ q'.suspended = q.suspended
        ∧ q'.last_assigned = q.last_assigned ∧ q'.answer = q.answer
        ∧ q'.answerer = q.answerer ∧ q'.answered = q.answered := by
  by_cases hmem : user ∈ q.assignees
  · have hcontains : q.assignees.contains user = true := List.elem_iff.2 hmem
    have hun : unassignStore s qid user = putQ s (releasedRecord q user) := by
      simp only [unassignStore, hq]
      rw [if_pos hcontains]
    have hass : (releasedRecord q user).assignees = q.assignees.erase user :=
      map_fst_removeClaim q.claims user
    constructor
    · intro h0
      exact absurd hmem (List.count_eq_zero.1 h0)
    · refine ⟨releasedRecord q user, ?_, hass, ?_, ?_, rfl, rfl, rfl, rfl,
        rfl, rfl, rfl, rfl, rfl⟩
      · rw [hun]
        exact getQ_putQ hq rfl
      · rw [hass, List.count_erase_self]
      · intro h2
        rw [hass]
        have hpos : 0 < (q.assignees.erase user).count user := by
          rw [List.count_erase_self]
          omega
        exact List.count_pos_iff.1 hpos
  · have hcontains : ¬(q.assignees.contains user = true) :=
      fun hc => hmem (List.elem_iff.1 hc)
    have hun : unassignStore s qid user = s := by
      simp only [unassignStore, hq]
      rw [if_neg hcontains]
    have hcount : q.assignees.count user = 0 := List.count_eq_zero.2 hmem
    refine ⟨fun _ => hun, q, ?_, (List.erase_of_not_mem hmem).symm,
      by rw [hcount], ?_, rfl, rfl, rfl, rfl, rfl, rfl, rfl, rfl, rfl⟩
    · rw [hun]
      exact hq
    · intro h2
      rw [hcount] at h2
      exact absurd h2 (by omega)

/-- Witness for C9 on the duplicated record `c5q` (Z recorded twice):
release removes one occurrence and Z is still an assignee. -/
theorem unassign_removes_first_occurrence_witness :
    getQ [c5q] 0 = some c5q
      ∧ ((c5q.assignees.count imZ = 0 → unassignStore [c5q] 0 imZ = [c5q])
        ∧ ∃ q', getQ (unassignStore [c5q] 0 imZ) 0 = some q'
            ∧ q'.assignees = c5q.assignees.erase imZ
            ∧ q'.assignees.count imZ = c5q.assignees.count imZ - 1
            ∧ (2 ≤ c5q.assignees.count imZ → imZ ∈ q'.assignees)
            ∧ q'.id = c5q.id ∧ q'.question = c5q.question
            ∧ q'.asker = c5q.asker ∧ q'.asked = c5q.asked
            ∧ q'.suspended = c5q.suspended
            ∧ q'.last_assigned = c5q.last_assigned ∧ q'.answer = c5q.answer
            ∧ q'.answerer = c5q.answerer ∧ q'.answered = c5q.answered) :=
  ⟨by decide, unassign_removes_first_occurrence [c5q] 0 imZ c5q (by decide)⟩

/-- Claim C5, counterexample to the at-most-once statement: the engine-level
sequential run ask(X), assign(Z) at clock 1, assign(Z) at clock 130 ends
with Z's identity occurring twice in the assignees of question 0 — both in
the record returned to Z and in the store. -/
theorem reclaim_after_expiry_duplicates_assignee :
    dupRun2.map (fun p => p.1.map (fun q => q.assignees.count imZ))
        = some (some 2)
      ∧ (getQ dupS3 0).map (fun q => q.assignees.count imZ) = some 2 := by
  decide

/-- Claim C7 (amended): when the user's identity occurs exactly once in the
question's assignees, release followed by `get_answering` never returns that
question. -/
theorem release_then_lookup_misses_question (s : Store) (qid : Nat)
    (user : IM) (q : Question) (hq : getQ s qid = some q)
    (hcount : q.assignees.count user = 1) (r : Question)
    (hr : get_answering (unassignStore s qid user) user = some r) :
    r.id ≠ qid := by
  have hqid : q.id = qid := getQ_id hq
  have hmem : user ∈ q.assignees := List.count_pos_iff.1 (by omega)
  have hcontains : q.assignees.contains user = true := List.elem_iff.2 hmem
  have hun : unassignStore s qid user = putQ s (releasedRecord q user) := by
    simp only [unassignStore, hq]
    rw [if_pos hcontains]
  rw [hun] at hr
  have hr' : List.find?
      (fun x => x.assignees.contains user && x.answer.isNone)
      (putQ s (releasedRecord q user)) = some r := hr
  have hpred := List.find?_some hr'
  have hpred2 : (r.assignees.contains user && r.answer.isNone) = true := hpred
  have hsplit : r.assignees.contains user = true ∧ r.answer.isNone = true := by
    simpa [Bool.and_eq_true] using hpred2
  have hrmem : user ∈ r.assignees := List.elem_iff.1 hsplit.1
  have hnot : user ∉ (releasedRecord q user).assignees := by
    have hass : (releasedRecord q user).assignees = q.assignees.erase user :=
      map_fst_removeClaim q.claims user
    rw [hass]
    apply List.count_eq_zero.1
    rw [List.count_erase_self, hcount]
  have hrin : r ∈ putQ s (releasedRecord q user) :=
    List.mem_of_find?_eq_some hr'
  rcases mem_putQ_determined hrin with rfl | ⟨-, hrid⟩
  · exact absurd hrmem hnot
  · have hrel : (releasedRecord q user).id = qid := hqid
    exact hrel ▸ hrid

/-- Witness for the amended C7: Z holds single claims on questions 0 and 1;
after releasing Z from question 0, the lookup finds question 1, not 0. -/
theorem release_then_lookup_misses_question_witness :
    get_answering (unassignStore [c7qa, c7qb] 0 imZ) imZ = some c7qb
      ∧ c7qb.id ≠ 0 :=
  ⟨by decide, release_then_lookup_misses_question [c7qa, c7qb] 0 imZ c7qa
    (by decide) (by decide) c7qb (by decide)⟩

/-- Claim C7, counterexample to the unconditional statement: starting from
the duplicated state reached by `dupRun2` (Z recorded twice on question 0,
a reachable engine-level state), releasing Z from question 0 removes only
the first occurrence, and `get_answering` for Z still returns question 0. -/
theorem release_after_duplicate_claim_still_assigned :
    (get_answering (unassignStore dupS3 0 imZ) imZ).map (fun q => q.id)
        = some 0
      ∧ (getQ (unassignStore dupS3 0 imZ) 0).map
          (fun q => q.assignees.count imZ) = some 1 := by
  decide

/-- Claim C10: when the answerer's identity occurs exactly once in the
question's assignees, the someone-answered fan-out goes to exactly the other
assignees — the answerer is removed from the list before sending and so
never receives the notice — and no fan-out is sent at all when the answerer
was the sole assignee. -/
theorem answer_fanout_excludes_answerer (s : Store) (user : IM)
    (text : String) (now : Nat) (q : Question)
    (hq : get_answering s user = some q)
    (hcount : q.assignees.count user = 1) :
    ∃ s' r, text_message_answer s user text now = some (s', r)
      ∧ r.otherAssignees = q.assignees.filter (fun a => !(a == user))
      ∧ user ∉ r.otherAssignees
      ∧ (q.assignees = [user] → r.fanout = none)
      ∧ (r.otherAssignees ≠ [] → r.fanout = some r.otherAssignees) := by
  have heq : text_message_answer s user text now
      = some (putQ s (answeredRecord q user text now),
          { record := answeredRecord q user text now,
            otherAssignees := q.assignees.erase user,
            fanout := if (q.assignees.erase user).isEmpty then none
                      else some (q.assignees.erase user),
            stillThinking :=
              (get_asked (putQ s (answeredRecord q user text now))
                user).isSome }) := by
    simp only [text_message_answer, hq]
  refine ⟨_, _, heq, ?_, ?_, ?_, ?_⟩
  · exact erase_eq_filter_of_count_one hcount
  · show user ∉ q.assignees.erase user
    apply List.count_eq_zero.1
    rw [List.count_erase_self, hcount]
  · intro hsole
    show (if (q.assignees.erase user).isEmpty then none
          else some (q.assignees.erase user)) = (none : Option (List IM))
    rw [hsole, List.erase_cons_head]
    rfl
  · intro hne
    have hne' : q.assignees.erase user ≠ [] := hne
    show (if (q.assignees.erase user).isEmpty then none
          else some (q.assignees.erase user))
        = some (q.assignees.erase user)
    rw [if_neg (fun h => hne' (List.isEmpty_iff.1 h))]

/-- Witness for C10: W and Z both hold claims; Z answers; the fan-out list
is exactly W, and Z is not in it. -/
theorem answer_fanout_excludes_answerer_witness :
    get_answering [c10q] imZ = some c10q
      ∧ ∃ s' r, text_message_answer [c10q] imZ "atext" 140 = some (s', r)
        ∧ r.otherAssignees = c10q.assignees.filter (fun a => !(a == imZ))
        ∧ imZ ∉ r.otherAssignees
        ∧ (c10q.assignees = [imZ] → r.fanout = none)
        ∧ (r.otherAssignees ≠ [] → r.fanout = some r.otherAssignees) :=
  ⟨by decide, answer_fanout_excludes_answerer [c10q] imZ "atext" 140 c10q
    (by decide) (by decide)⟩

/-- Claim C2, failing input: in the interfered run `c2rounds` over
`raceStore` (W's claim wins the race in round one, round two finds no
candidate), `assign_question` returns the round-one lost-race record —
a question whose assignees do not contain the requesting user Z, although
the docstring and the spec promise that a returned question is assigned to
the user. -/
theorem assign_returns_lost_race_record :
    (assignLoopI imZ c2rounds none raceStore).map
        (fun p => p.1.map (fun q => (q.id, q.assignees.contains imZ)))
      = some (some (0, false)) := by
  decide

/-- Claim C4, failing input: in the interfered run `c4rounds` over
`raceStore` (Y answers the question between Z's candidate query and Z's
claim transaction), the claim transaction appends Z to the already-Answered
record and `assign_question` returns it: the final record has
`answer`, `answerer` and `answered` all set, yet `assignees = [Z]` — the
Answered state was mutated after the fact. -/
theorem answered_record_mutated_by_racing_claim :
    (assignLoopI imZ c4rounds none raceStore).map
        (fun p => p.1.map (fun q => (q.answer, q.answerer, q.answered,
          q.assignees)))
      = some (some (some "atext", some imY, some 131, [imZ])) := by
  rfl

/-- Claim C3, counterexample: a claim transaction invoked from a round whose
expiry was computed as `10` (query at clock 130) but whose transaction runs
at clock 260 leaves the re-read record `c3q` untouched, although the
record's `last_assigned = 135` IS older than the expiry computed against the
current time at transaction time (`260 - 120 = 140`) — the transaction
checks only the round-start expiry it was handed. -/
theorem claim_transaction_ignores_transaction_time_expiry :
    (tryAssign [c3q] 0 imZ 10 260).1 = [c3q]
      ∧ (tryAssign [c3q] 0 imZ 10 260).2 = some c3q
      ∧ laLt c3q.last_assigned (260 - MAX_ANSWER_TIME) = true := by
  decide

/-- Claim C3 (amended): the claim transaction re-reads the record by id and
succeeds — appending the user and stamping `last_assigned` — exactly when
the re-read record's `last_assigned` is absent or older than the expiry
computed at the start of the round (before the candidate query) and passed
into the transaction unchanged; otherwise the record is left untouched. -/
theorem try_assign_succeeds_iff_older_than_round_expiry (s : Store)
    (qid : Nat) (user : IM) (expiry now : Nat) (q : Question)
    (hq : getQ s qid = some q) :
    (laLt q.last_assigned expiry = true →
        tryAssign s qid user expiry now
          = (putQ s (claimRecord q user now), some (claimRecord q user now)))
    ∧ (laLt q.last_assigned expiry = false →
        tryAssign s qid user expiry now = (s, some q)) := by
  constructor
  · intro h
    simp only [tryAssign, hq]
    rw [if_pos h]
  · intro h
    simp only [tryAssign, hq]
    rw [if_neg (fun hh => by rw [h] at hh; exact Bool.noConfusion hh)]

/-- Witness for the amended C3: the transaction on `c3q` with round expiry
10 leaves the store untouched and returns the unchanged record. -/
theorem try_assign_succeeds_iff_older_than_round_expiry_witness :
    getQ [c3q] 0 = some c3q ∧ laLt c3q.last_assigned 10 = false
      ∧ tryAssign [c3q] 0 imZ 10 260 = ([c3q], some c3q) :=
  ⟨by decide, by decide,
   (try_assign_succeeds_iff_older_than_round_expiry [c3q] 0 imZ 10 260 c3q
     (by decide)).2 (by decide)⟩
